import Mathlib

/-!
# PolyRisk — verification of the game engine against its specification

Shallow embedding of the PolyRisk Risk-simulator core (probability engine,
world/state data model, query layer, state transitions, game driver,
initial-state construction), translated from the Python sources.
Python's unbounded non-negative integers are modelled by `Nat`; Python float
arithmetic on the probability tables is modelled by exact rational
arithmetic (`ℚ`) over the same decimal literals that appear in the source.
Python dictionaries keyed by territories are modelled as total functions
whose relevant domain is `world.territories`, and Python's persistent
`NamedTuple._replace` / dict-merge updates become pure functional updates,
so a transition never alters its input state by construction.
-/

namespace PolyRisk

/-! ## Probability engine (`ais/probabilistic.py`)

`_prob_table` returns, for a number of attacker dice `a` and defender dice
`d`, the map from (attacker losses, defender losses) to the probability of
that single-round outcome.  The Python dict is modelled as an association
list in the source's insertion order; the decimal float literals of the
source become the exact rationals `583/1000`, etc. -/

def prob_table (a d : Nat) : List ((Nat × Nat) × ℚ) :=
  if (a, d) = (1, 1) then [((1,0), 583/1000), ((0,1), 417/1000)]
  else if (a, d) = (2, 1) then [((1,0), 421/1000), ((0,1), 579/1000)]
  else if (a, d) = (3, 1) then [((1,0), 340/1000), ((0,1), 660/1000)]
  else if (a, d) = (2, 2) then [((2,0), 448/1000), ((1,1), 324/1000), ((0,2), 228/1000)]
  else if (a, d) = (3, 2) then [((2,0), 292/1000), ((1,1), 336/1000), ((0,2), 372/1000)]
  else if (a, d) = (1, 2) then [((1,0), 745/1000), ((0,1), 255/1000)]
  else []

/-- Every loss pair appearing in `prob_table` removes at most two units from
each side and at least one unit in total; this bounds the recursion of
`conquest_prob` (stated as a `def` because the recursive definition below
depends on it for termination). -/
def prob_table_mem_bounds (a d : Nat) (x : (Nat × Nat) × ℚ)
    (hx : x ∈ prob_table a d) : x.1.1 ≤ 2 ∧ x.1.2 ≤ 2 ∧ 1 ≤ x.1.1 + x.1.2 := by
  unfold prob_table at hx
  repeat' split at hx
  all_goals simp only [List.mem_cons, List.not_mem_nil] at hx
  all_goals rcases hx with h | h | h | h <;> first | (subst h; simp) | exact h.elim

/-- `conquest_prob` from `ais/probabilistic.py`: the probability that an
attacking stack of `A` units conquers a territory defended by `D` units,
by dynamic programming over the single-round outcome table for
`(min 3 (A-1), min 2 D)` dice. -/
def conquest_prob (A D : Nat) : ℚ :=
  if _hD : D = 0 then 1
  else if _hA : A ≤ 1 then 0
  else
    ((prob_table (min 3 (A - 1)) (min 2 D)).attach.map
      (fun x => x.1.2 * conquest_prob (A - x.1.1.1) (D - x.1.1.2))).sum
termination_by A + D
decreasing_by
  have h := prob_table_mem_bounds _ _ _ x.2
  omega


/-! ## Binary64 model of the float dynamic program (one-defender column)

The source's `conquest_prob` computes in Python floats, i.e. IEEE-754
binary64 with round-to-nearest, ties-to-even.  The following definitions
model that arithmetic exactly over the normal range: a positive double is
a pair `(m, ex)` of value `m * 2 ^ ex` with `2 ^ 52 ≤ m < 2 ^ 53`, and
every operation performs one correct rounding, as CPython's `+` and `*`
do.  Only integer arithmetic is used, so the kernel can evaluate the
model. -/

/-- Number of binary digits of `n` (fuel-bounded structural recursion; the
fuel covers every integer below `2 ^ 4000`, far beyond any value used). -/
def bitlenAux : Nat → Nat → Nat
  | 0, _ => 0
  | fuel + 1, n => if n = 0 then 0 else bitlenAux fuel (n / 2) + 1

def bitlen (n : Nat) : Nat := bitlenAux 4000 n

/-- Round-to-nearest-even of the positive rational `n / d` to binary64 (in
the normal range, exponent at most 52): the representable `m * 2 ^ ex`
nearest to `n / d`, ties to the even significand.  CPython parses a
decimal float literal to exactly this value. -/
def ratRound (n d : Nat) : Nat × Int :=
  let g : Int := (bitlen n : Int) - (bitlen d : Int)
  let e : Int :=
    if 0 ≤ g then (if 2 ^ g.toNat * d ≤ n then g else g - 1)
    else (if d ≤ n * 2 ^ (-g).toNat then g else g - 1)
  let num := n * 2 ^ (52 - e).toNat
  let m0 := num / d
  let r := num % d
  let m1 := if 2 * r > d ∨ (2 * r = d ∧ m0 % 2 = 1) then m0 + 1 else m0
  if m1 = 2 ^ 53 then (2 ^ 52, e - 51) else (m1, e - 52)

/-- Round-to-nearest-even of the dyadic value `m * 2 ^ ex` to 53
significant bits. -/
def normRound (m : Nat) (ex : Int) : Nat × Int :=
  if m = 0 then (0, 0)
  else
    let L := bitlen m
    if L ≤ 53 then (m * 2 ^ (53 - L), ex - (53 - L))
    else
      let shift := L - 53
      let low := m % 2 ^ shift
      let high := m / 2 ^ shift
      let half := 2 ^ (shift - 1)
      let m1 := if low > half ∨ (low = half ∧ high % 2 = 1) then high + 1
                else high
      if m1 = 2 ^ 53 then (2 ^ 52, ex + shift + 1) else (m1, ex + shift)

/-- Binary64 multiplication of positive doubles: exact product, one
rounding. -/
def fmul (x y : Nat × Int) : Nat × Int :=
  normRound (x.1 * y.1) (x.2 + y.2)

/-- Binary64 addition of positive doubles: exact aligned sum, one
rounding. -/
def fadd (x y : Nat × Int) : Nat × Int :=
  if x.2 ≤ y.2 then normRound (y.1 * 2 ^ (y.2 - x.2).toNat + x.1) x.2
  else normRound (x.1 * 2 ^ (x.2 - y.2).toNat + y.1) y.2

/-- The doubles CPython parses for the `_prob_table` literals that the
`d = 1` column of the dynamic program reads. -/
def d417 : Nat × Int := ratRound 417 1000

def d421 : Nat × Int := ratRound 421 1000

def d579 : Nat × Int := ratRound 579 1000

def d340 : Nat × Int := ratRound 340 1000

def d660 : Nat × Int := ratRound 660 1000

/-- The float evaluation of the source's `conquest_prob(A, 1)`: the loop
`p = 0.0; p += q * conquest_prob(...)` performs, per table entry, one
rounded multiply and one rounded add.  The exact IEEE identities
`0.0 + x = x`, `q * 0.0 = 0.0` and `q * 1.0 = q` collapse the zero
accumulator, the `conquest_prob(1, 1) = 0.0` term at `A = 2`, and the
`conquest_prob(A, 0) = 1.0` factors, so the remaining operations are:
`A = 2` yields the 0.417 literal; `A = 3` is
`fl(fl(0.421 * c(2,1)) + 0.579)` over table `(2, 1)`; and `A ≥ 4` is
`fl(fl(0.340 * c(A-1,1)) + 0.660)` over table `(3, 1)`
(`conquest_prob_float1 2 = d417` is inlined in the `A = 3` case to keep
the recursion structural). -/
def conquest_prob_float1 : Nat → Nat × Int
  | 0 => (0, 0)
  | 1 => (0, 0)
  | 2 => d417
  | 3 => fadd (fmul d421 d417) d579
  | (A + 4) => fadd (fmul d340 (conquest_prob_float1 (A + 3))) d660

/-! ## Data model (`model/region.py`, `model/territory.py`, `model/army.py`,
`model/world.py`, `model/state.py`)

Python equality/hashing of regions, territories and armies is by natural
key (name / colour); inside one constructed world the natural key
determines the whole object, so Lean's structural equality coincides with
the source's. -/

structure Region where
  name : String
  value : Nat
deriving DecidableEq

structure Territory where
  name : String
  region : Region
deriving DecidableEq

structure Army where
  colour : String
deriving DecidableEq

/-- The permanent facts of a game (`model/world.py`).  The constructor's
derived fields (`region_territories`, the symmetrised adjacency set) are
carried as data; the construction postconditions that matter to a claim are
taken as explicit hypotheses where needed. -/
structure World where
  armies : Finset Army
  regions : Finset Region
  territories : Finset Territory
  adjacencies : Finset (Territory × Territory)
  region_territories : Region → Finset Territory

/-- A snapshot (`model/state.py`): the world plus the occupation map
`Territory -> (Army, Unit)`.  The Python dict with domain
`world.territories` is modelled as a total function read only on that
domain. -/
structure State where
  world : World
  state : Territory → Army × Nat

/-- The `World` constructor makes the adjacency relation irreflexive
(`if t1 != t2` in `model/world.py`); transitions that move units between
two adjacent territories rely on it. -/
def adjacencies_irreflexive (w : World) : Prop :=
  ∀ p ∈ w.adjacencies, p.1 ≠ p.2

/-- The `State` invariant from the spec: every territory of the world has
exactly one occupant belonging to the world's armies, with at least one
unit. -/
def valid_state (s : State) : Prop :=
  ∀ t ∈ s.world.territories,
    (s.state t).1 ∈ s.world.armies ∧ 1 ≤ (s.state t).2

/-! ## Query layer (`model/state_informations.py`) -/

def territory_occupant (s : State) (t : Territory) : Army := (s.state t).1

def territory_units (s : State) (t : Territory) : Nat := (s.state t).2

def territories_occupied_by_army (s : State) (a : Army) : Finset Territory :=
  s.world.territories.filter (fun t => territory_occupant s t = a)

def bordering_territories (s : State) (t : Territory) : Finset Territory :=
  s.world.territories.filter (fun t2 => (t, t2) ∈ s.world.adjacencies)

/-- Source: `{ territory_occupant(s, t) for t in s.state if t.region == r }`
(the dict's key set is the world's territory set). -/
def armies_in_region (s : State) (r : Region) : Finset Army :=
  (s.world.territories.filter (fun t => t.region = r)).image
    (fun t => territory_occupant s t)

def armies_in_territories (s : State) (T : Finset Territory) : Finset Army :=
  T.image (fun t => territory_occupant s t)

/-- Armies are linearly ordered by colour; the order is only used to model
`next(iter(A))` — Python set iteration yields an arbitrary element, and the
colour-minimal one is one such choice (all uses are on sets of at most one
element, where the choice is unique anyway). -/
instance : LinearOrder Army :=
  LinearOrder.lift' Army.colour (fun a b h => by cases a; cases b; simpa using h)

/-- `next(iter(A))`: some element of the set when it is nonempty; on an
empty set the Python raises `StopIteration`, modelled by `none`. -/
def next_iter (A : Finset Army) : Option Army :=
  if h : A.Nonempty then some (A.min' h) else none

/-- Source: `None if len(A := armies_in_region(s, r)) > 0 else next(iter(A))`.
The `else` branch only runs when the army set is empty, so the model
returns `none` in both branches exactly as the Python returns `None`
whenever it returns at all. -/
def region_occupant (s : State) (r : Region) : Option Army :=
  if 0 < (armies_in_region s r).card then none
  else next_iter (armies_in_region s r)

def regions_occupied_by_army (s : State) (a : Army) : Finset Region :=
  s.world.regions.filter
    (fun r => s.world.region_territories r ⊆ territories_occupied_by_army s a)

def is_occupied_region (s : State) (r : Region) : Bool :=
  (region_occupant s r).isSome

/-- Source: `{ (t1, a1, t2, a2) for (t1, t2) in adjacencies
if (a1 := territory_occupant(s, t1)) != (a2 := territory_occupant(s, t1)) }` —
both named expressions read territory `t1`. -/
def territory_fronts (s : State) :
    Finset (Territory × Army × Territory × Army) :=
  (s.world.adjacencies.filter
      (fun p => territory_occupant s p.1 ≠ territory_occupant s p.1)).image
    (fun p => (p.1, territory_occupant s p.1, p.2, territory_occupant s p.1))

def army_units (s : State) (a : Army) : Nat :=
  ∑ t ∈ s.world.territories.filter (fun t => territory_occupant s t = a),
    territory_units s t

def is_defeated_army (s : State) (a : Army) : Bool :=
  army_units s a == 0

def reinforcement_units (s : State) (a : Army) : Nat :=
  max 3 ((territories_occupied_by_army s a).card / 3 +
    ∑ r ∈ regions_occupied_by_army s a, r.value)

def undefeated_armies (s : State) : Finset Army :=
  s.world.territories.image (fun t => territory_occupant s t)

/-- Source: `None if len(A := undefeated_armies(s)) > 1 else next(iter(A))`.
The `else` branch runs with `len(A) ≤ 1`; for a singleton it yields the
unique element, and for the empty set (impossible for a world with a
territory) the Python raises, modelled by `none`. -/
def winning_army (s : State) : Option Army :=
  if 1 < (undefeated_armies s).card then none
  else next_iter (undefeated_armies s)

def game_over (s : State) : Bool :=
  (winning_army s).isSome

/-- Total number of units on the board — the quantity the conservation
properties speak about. -/
def total_units (s : State) : Nat :=
  ∑ t ∈ s.world.territories, territory_units s t

/-! ## State transitions (`strategy/state_actions.py`)

Each `do_*` function is the Python computation
`s._replace(state = s.state | {...})`; the dict merge is modelled by a
functional update (the last-written key wins, as in Python).  The inline
`assert` preconditions become the `*_pre` propositions. -/

def do_reinforce (s : State) (R : Finset Territory) (alloc : Territory → Nat) :
    State :=
  { s with state := fun t =>
      if t ∈ R then (territory_occupant s t, territory_units s t + alloc t)
      else s.state t }

def do_reinforce_pre (s : State) (R : Finset Territory)
    (alloc : Territory → Nat) : Prop :=
  R.Nonempty ∧
  R ⊆ s.world.territories ∧
  (armies_in_territories s R).card = 1 ∧
  (∀ t ∈ R, territory_occupant s t ∈ armies_in_territories s R) ∧
  (∀ t ∈ R, 1 ≤ territory_units s t) ∧
  (∀ t ∈ R, 0 < alloc t) ∧
  (∑ t ∈ R, alloc t) = ∑ a ∈ armies_in_territories s R, reinforcement_units s a

def do_bury (s : State) (t_a t_d : Territory) (p_a p_d : Nat) : State :=
  { s with state := fun t =>
      if t = t_d then (territory_occupant s t_d, territory_units s t_d - p_d)
      else if t = t_a then
        (territory_occupant s t_a, territory_units s t_a - p_a)
      else s.state t }

def do_bury_pre (s : State) (t_a t_d : Territory) (p_a p_d : Nat) : Prop :=
  t_a ∈ s.world.territories ∧
  t_d ∈ s.world.territories ∧
  (t_a, t_d) ∈ s.world.adjacencies ∧
  territory_occupant s t_a ∈ s.world.armies ∧
  territory_occupant s t_d ∈ s.world.armies ∧
  territory_occupant s t_a ≠ territory_occupant s t_d ∧
  (p_a, p_d) ∈ ([(0,1), (1,0), (2,0), (1,1), (0,2)] : List (Nat × Nat)) ∧
  p_a < territory_units s t_a ∧
  p_d < territory_units s t_d

def do_invade (s : State) (t_a t_d : Territory) (n_a p_a n : Nat) : State :=
  { s with state := fun t =>
      if t = t_d then (territory_occupant s t_a, n)
      else if t = t_a then
        (territory_occupant s t_a, territory_units s t_a - p_a - n)
      else s.state t }

def do_invade_pre (s : State) (t_a t_d : Territory) (n_a p_a n : Nat) : Prop :=
  t_a ∈ s.world.territories ∧
  t_d ∈ s.world.territories ∧
  (t_a, t_d) ∈ s.world.adjacencies ∧
  territory_occupant s t_a ∈ s.world.armies ∧
  territory_occupant s t_d ∈ s.world.armies ∧
  territory_occupant s t_a ≠ territory_occupant s t_d ∧
  p_a < n_a ∧
  n_a - p_a ≤ n ∧
  0 < n_a - p_a ∧
  n ≤ territory_units s t_a - p_a - 1

def do_maneuver (s : State) (t_0 t_1 : Territory) (n : Nat) : State :=
  { s with state := fun t =>
      if t = t_1 then (territory_occupant s t_1, territory_units s t_1 + n)
      else if t = t_0 then
        (territory_occupant s t_0, territory_units s t_0 - n)
      else s.state t }

def do_maneuver_pre (s : State) (t_0 t_1 : Territory) (n : Nat) : Prop :=
  t_0 ∈ s.world.territories ∧
  t_1 ∈ s.world.territories ∧
  0 < territory_units s t_0 ∧
  0 < territory_units s t_1 ∧
  (t_0, t_1) ∈ s.world.adjacencies ∧
  territory_occupant s t_0 = territory_occupant s t_1 ∧
  0 < n ∧
  n < territory_units s t_0

/-! ## Strategy contract boundary (`strategy/strategy.py`)

The `Strategy.invade` wrapper checks the returned invading count against
its two postcondition asserts; combined with `do_invade`'s preconditions
this is the full boundary check applied to a strategy's answer. -/

def strategy_invade_post (s : State) (t_a : Territory) (n_a p_a result : Nat) :
    Prop :=
  n_a - p_a ≤ result ∧ result ≤ territory_units s t_a - 1

/-! ## Game driver (`game/game.py`)

The per-army turn body (reinforcement, attack loop with dice, maneuver) is
abstracted as an oracle `turnFn` covering the strategy calls and the random
battle outcomes; the loop skeleton — the round-robin index, the
defeated-army skip, and the `(j // len(A) < r_max) and not game_over(s)`
guard — is translated literally.  `A` is the iteration order of the Python
set `s.world.armies`, and `r_max` is the bounded variant of the optional
round limit.  The structural recursion consumes one `fuel` per loop
iteration; `game` supplies more fuel than the guard ever allows, so the
fuel never runs out. -/

def game_iter {P : Type} (turnFn : State → Army → P × State) (A : List Army)
    (r_max : Nat) : Nat → Nat → State → List (P × State)
  | _, 0, _ => []
  | j, fuel + 1, s =>
    if j / A.length < r_max ∧ game_over s = false then
      match A[j % A.length]? with
      | none => []
      | some a =>
        if is_defeated_army s a then game_iter turnFn A r_max (j + 1) fuel s
        else
          match turnFn s a with
          | (p, s') => (p, s') :: game_iter turnFn A r_max (j + 1) fuel s'
    else []

def game {P : Type} (turnFn : State → Army → P × State) (A : List Army)
    (s : State) (r_max : Nat) : List (P × State) :=
  game_iter turnFn A r_max 0 (r_max * A.length + 1) s

/-! ## Initial state (`game/setup.py`)

`random_initial_state` shuffles the army list and the territory list, then
deals `[(a, 2) for a in A] * (len(territories) // len(armies))` fair
placements followed by one shuffled extra round `Q`, and zips the
territories against that list.  The three `random.shuffle` calls are
modelled by taking the already-shuffled lists as parameters (constrained to
be permutations in the theorems); `dict(zip(T, P + Q))` becomes an
association-list lookup (`T` has no duplicate keys).  The default value
stands for the `KeyError` a lookup outside `T` would raise. -/

def initial_pairs (A : List Army) : List (Army × Nat) :=
  A.map (fun a => (a, 2))

def random_initial_state (w : World) (T : List Territory) (A : List Army)
    (Q : List (Army × Nat)) : State :=
  { world := w,
    state := fun t =>
      ((T.zip
          ((List.replicate (w.territories.card / w.armies.card)
            (initial_pairs A)).flatten ++ Q)).lookup t).getD (⟨"keyerror"⟩, 0) }

/-! ## Single-battle enumeration (`probabilities_single_battle.py`)

First-principles enumeration of dice outcomes: ordered rolls, sides sorted
descending, pairwise comparison with ties won by the defender.
`frequency_histogram(X)[o]` is `X.count o / X.length`. -/

def dice_values_1 : List Nat := [1, 2, 3, 4, 5, 6]

def battle_losses_11 (a b : Nat) : Nat × Nat :=
  if a > b then (0, 1) else (1, 0)

def all_battles_11 : List (Nat × Nat) :=
  dice_values_1.flatMap (fun a => dice_values_1.map (fun b => battle_losses_11 a b))

def dice_values_2 : List (Nat × Nat) :=
  dice_values_1.flatMap (fun a => dice_values_1.map (fun b => (max a b, min a b)))

def all_battles_21 : List (Nat × Nat) :=
  dice_values_2.flatMap (fun p => dice_values_1.map (fun b => battle_losses_11 p.1 b))

def all_battles_12 : List (Nat × Nat) :=
  dice_values_1.flatMap (fun a => dice_values_2.map (fun p => battle_losses_11 a p.1))

def battle_losses_22 (a b c d : Nat) : Nat × Nat :=
  ((battle_losses_11 a c).1 + (battle_losses_11 b d).1,
   (battle_losses_11 a c).2 + (battle_losses_11 b d).2)

def all_battles_22 : List (Nat × Nat) :=
  dice_values_2.flatMap
    (fun p => dice_values_2.map (fun q => battle_losses_22 p.1 p.2 q.1 q.2))

/-- `tuple(sorted([a, b, c], reverse=True))`: the middle value is the total
minus the extremes. -/
def dice_values_3 : List (Nat × Nat × Nat) :=
  dice_values_1.flatMap (fun a => dice_values_1.flatMap (fun b =>
    dice_values_1.map (fun c =>
      (max a (max b c), a + b + c - max a (max b c) - min a (min b c),
       min a (min b c)))))

def all_battles_31 : List (Nat × Nat) :=
  dice_values_3.flatMap (fun p => dice_values_1.map (fun d => battle_losses_11 p.1 d))

def all_battles_32 : List (Nat × Nat) :=
  dice_values_3.flatMap
    (fun p => dice_values_2.map (fun q => battle_losses_22 p.1 p.2.1 q.1 q.2))

/-! ## Concrete instances used by the witnesses -/

def exRegion : Region := ⟨"north", 1⟩

def exT0 : Territory := ⟨"t0", exRegion⟩

def exT1 : Territory := ⟨"t1", exRegion⟩

def exT2 : Territory := ⟨"t2", exRegion⟩

def exRed : Army := ⟨"red"⟩

def exBlue : Army := ⟨"blue"⟩

/-- A two-territory world with two armies. -/
def exWorld : World :=
  { armies := {exRed, exBlue},
    regions := {exRegion},
    territories := {exT0, exT1},
    adjacencies := {(exT0, exT1), (exT1, exT0)},
    region_territories := fun r => if r = exRegion then {exT0, exT1} else ∅ }

/-- Mixed occupation: red on `t0` with 3 units, blue on `t1` with 1 unit. -/
def exState : State :=
  ⟨exWorld, fun t => if t = exT0 then (exRed, 3) else (exBlue, 1)⟩

/-- Red holds everything: red on `t0` with 3 units and on `t1` with 1. -/
def exStateRed : State :=
  ⟨exWorld, fun t => if t = exT0 then (exRed, 3) else (exRed, 1)⟩

/-- A three-territory world with two armies, for the initial-deal claim. -/
def exWorld3 : World :=
  { armies := {exRed, exBlue},
    regions := {exRegion},
    territories := {exT0, exT1, exT2},
    adjacencies := {(exT0, exT1), (exT1, exT0), (exT1, exT2), (exT2, exT1)},
    region_territories := fun r =>
      if r = exRegion then {exT0, exT1, exT2} else ∅ }

/-! ## Probability engine: base cases, recurrence, bounds, monotonicity -/

/-- Base case: with no defenders left the territory is conquered. -/
theorem conquest_prob_defenders_zero (A : Nat) : conquest_prob A 0 = 1 := by
  unfold conquest_prob
  simp

/-- Base case: an attacker reduced to at most one unit can no longer attack. -/
theorem conquest_prob_attacker_le_one (A D : Nat) (hA : A ≤ 1) (hD : D ≠ 0) :
    conquest_prob A D = 0 := by
  unfold conquest_prob
  simp [hA, hD]

/-- One unfolding of the recurrence, with the `attach` bookkeeping removed. -/
theorem conquest_prob_rec (A D : Nat) (hA : 2 ≤ A) (hD : 1 ≤ D) :
    conquest_prob A D =
      ((prob_table (min 3 (A - 1)) (min 2 D)).map
        (fun x => x.2 * conquest_prob (A - x.1.1) (D - x.1.2))).sum := by
  rw [conquest_prob]
  have hD' : ¬ D = 0 := by omega
  have hA' : ¬ A ≤ 1 := by omega
  simp only [hD', hA', dite_false]
  congr 1
  have : (fun (x : {y // y ∈ prob_table (min 3 (A - 1)) (min 2 D)}) =>
      x.1.2 * conquest_prob (A - x.1.1.1) (D - x.1.1.2)) =
      (fun x : (Nat × Nat) × ℚ => x.2 * conquest_prob (A - x.1.1) (D - x.1.2)) ∘
        Subtype.val := rfl
  rw [this, ← List.map_map, List.attach_map_subtype_val]

/-- `conquest_prob 2 1`: one attacker die vs one defender die. -/
theorem cp_2_1 : conquest_prob 2 1 = 417/1000 := by
  rw [conquest_prob_rec 2 1 (by omega) (by omega)]
  norm_num [prob_table, conquest_prob_defenders_zero,
    conquest_prob_attacker_le_one 1 1 (by omega) (by omega)]

/-- `conquest_prob 2 (d+2)`: one attacker die vs two defender dice; the
attacker-loses branch reaches `conquest_prob 1 _ = 0`. -/
theorem cp_2_step (d : Nat) :
    conquest_prob 2 (d + 2) = 255/1000 * conquest_prob 2 (d + 1) := by
  rw [conquest_prob_rec 2 (d + 2) (by omega) (by omega)]
  have h1 : conquest_prob 1 (d + 2) = 0 :=
    conquest_prob_attacker_le_one 1 (d + 2) (by omega) (by omega)
  have hmin : min 2 (d + 2) = 2 := by omega
  simp [prob_table, hmin, h1]

/-- `conquest_prob 3 1`: two attacker dice vs one defender die. -/
theorem cp_3_1 : conquest_prob 3 1 = 754557/1000000 := by
  rw [conquest_prob_rec 3 1 (by omega) (by omega)]
  norm_num [prob_table, conquest_prob_defenders_zero, cp_2_1]

/-- `conquest_prob 3 (d+2)`: two attacker dice vs two defender dice. -/
theorem cp_3_step (d : Nat) :
    conquest_prob 3 (d + 2) =
      324/1000 * conquest_prob 2 (d + 1) + 228/1000 * conquest_prob 3 d := by
  rw [conquest_prob_rec 3 (d + 2) (by omega) (by omega)]
  have h1 : conquest_prob 1 (d + 2) = 0 :=
    conquest_prob_attacker_le_one 1 (d + 2) (by omega) (by omega)
  have hmin : min 2 (d + 2) = 2 := by omega
  simp [prob_table, hmin, h1]

/-- `conquest_prob (a+4) 1`: three attacker dice vs one defender die. -/
theorem cp_4_1 (a : Nat) :
    conquest_prob (a + 4) 1 = 660/1000 + 340/1000 * conquest_prob (a + 3) 1 := by
  rw [conquest_prob_rec (a + 4) 1 (by omega) (by omega)]
  have hmin : min 3 (a + 4 - 1) = 3 := by omega
  have h0 : conquest_prob (a + 4) 0 = 1 := conquest_prob_defenders_zero _
  have ha : a + 4 - 1 = a + 3 := by omega
  simp [prob_table, hmin, ha, h0]
  ring

/-- `conquest_prob (a+4) (d+2)`: three attacker dice vs two defender dice,
the generic interior of the dynamic program. -/
theorem cp_4_step (a d : Nat) :
    conquest_prob (a + 4) (d + 2) =
      292/1000 * conquest_prob (a + 2) (d + 2) +
      336/1000 * conquest_prob (a + 3) (d + 1) +
      372/1000 * conquest_prob (a + 4) d := by
  rw [conquest_prob_rec (a + 4) (d + 2) (by omega) (by omega)]
  have hmin : min 3 (a + 4 - 1) = 3 := by omega
  have hmin' : min 2 (d + 2) = 2 := by omega
  have h2 : a + 4 - 2 = a + 2 := by omega
  have h1 : a + 4 - 1 = a + 3 := by omega
  simp [prob_table, hmin, hmin', h2, h1]
  ring

/-- The dynamic program stays within `[0, 1]`. -/
theorem cp_bounds : ∀ n A D : Nat, A + D ≤ n →
    0 ≤ conquest_prob A D ∧ conquest_prob A D ≤ 1 := by
  intro n
  induction n using Nat.strong_induction_on with
  | _ n IH =>
    intro A D hn
    match D, A with
    | 0, A => rw [conquest_prob_defenders_zero]; norm_num
    | (D + 1), 0 =>
      rw [conquest_prob_attacker_le_one 0 (D + 1) (by omega) (by omega)]; norm_num
    | (D + 1), 1 =>
      rw [conquest_prob_attacker_le_one 1 (D + 1) (by omega) (by omega)]; norm_num
    | 1, 2 => rw [cp_2_1]; norm_num
    | (d + 2), 2 =>
      rw [cp_2_step]
      have h := IH (2 + (d + 1)) (by omega) 2 (d + 1) (by omega)
      constructor <;> nlinarith [h.1, h.2]
    | 1, 3 => rw [cp_3_1]; norm_num
    | (d + 2), 3 =>
      rw [cp_3_step]
      have h1 := IH (2 + (d + 1)) (by omega) 2 (d + 1) (by omega)
      have h2 := IH (3 + d) (by omega) 3 d (by omega)
      constructor <;> nlinarith [h1.1, h1.2, h2.1, h2.2]
    | 1, (a + 4) =>
      rw [cp_4_1]
      have h := IH (a + 3 + 1) (by omega) (a + 3) 1 (by omega)
      constructor <;> nlinarith [h.1, h.2]
    | (d + 2), (a + 4) =>
      rw [cp_4_step]
      have h1 := IH (a + 2 + (d + 2)) (by omega) (a + 2) (d + 2) (by omega)
      have h2 := IH (a + 3 + (d + 1)) (by omega) (a + 3) (d + 1) (by omega)
      have h3 := IH (a + 4 + d) (by omega) (a + 4) d (by omega)
      constructor <;> nlinarith [h1.1, h1.2, h2.1, h2.2, h3.1, h3.2]

theorem cp_nonneg (A D : Nat) : 0 ≤ conquest_prob A D :=
  (cp_bounds (A + D) A D le_rfl).1

theorem cp_le_one (A D : Nat) : conquest_prob A D ≤ 1 :=
  (cp_bounds (A + D) A D le_rfl).2

/-- An attacker with at least two units always has a positive conquest
probability: every outcome table has an entry in which only the defender
loses units, so the chain down to `D = 0` has positive probability. -/
theorem cp_pos (A : Nat) (hA : 2 ≤ A) : ∀ D : Nat, 0 < conquest_prob A D := by
  intro D
  induction D using Nat.strong_induction_on with
  | _ D IH =>
    match D, A, hA with
    | 0, A, _ => rw [conquest_prob_defenders_zero]; norm_num
    | 1, 2, _ => rw [cp_2_1]; norm_num
    | (d + 2), 2, _ =>
      rw [cp_2_step]
      have h := IH (d + 1) (by omega)
      nlinarith [h]
    | 1, 3, _ => rw [cp_3_1]; norm_num
    | (d + 2), 3, _ =>
      rw [cp_3_step]
      have h := IH d (by omega)
      nlinarith [h, cp_nonneg 2 (d + 1)]
    | 1, (a + 4), _ =>
      rw [cp_4_1]
      nlinarith [cp_nonneg (a + 3) 1]
    | (d + 2), (a + 4), _ =>
      rw [cp_4_step]
      have h := IH d (by omega)
      nlinarith [h, cp_nonneg (a + 2) (d + 2), cp_nonneg (a + 3) (d + 1)]

/-- Against at least one defender the conquest is never certain: every
outcome table has an entry in which only the attacker loses units, so a
positive probability always leaks to the `A ≤ 1` failure states. -/
theorem cp_lt_one : ∀ A D : Nat, 1 ≤ D → conquest_prob A D < 1 := by
  intro A
  induction A using Nat.strong_induction_on with
  | _ A IH =>
    intro D hD
    match A, D, hD with
    | 0, (D + 1), _ =>
      rw [conquest_prob_attacker_le_one 0 (D + 1) (by omega) (by omega)]; norm_num
    | 1, (D + 1), _ =>
      rw [conquest_prob_attacker_le_one 1 (D + 1) (by omega) (by omega)]; norm_num
    | 2, 1, _ => rw [cp_2_1]; norm_num
    | 2, (d + 2), _ =>
      rw [cp_2_step]
      nlinarith [cp_le_one 2 (d + 1), cp_nonneg 2 (d + 1)]
    | 3, 1, _ => rw [cp_3_1]; norm_num
    | 3, (d + 2), _ =>
      rw [cp_3_step]
      nlinarith [cp_le_one 2 (d + 1), cp_nonneg 2 (d + 1), cp_le_one 3 d,
        cp_nonneg 3 d]
    | (a + 4), 1, _ =>
      rw [cp_4_1]
      have h := IH (a + 3) (by omega) 1 (by omega)
      nlinarith [h]
    | (a + 4), (d + 2), _ =>
      rw [cp_4_step]
      have h := IH (a + 2) (by omega) (d + 2) (by omega)
      nlinarith [h, cp_le_one (a + 3) (d + 1), cp_nonneg (a + 3) (d + 1),
        cp_le_one (a + 4) d, cp_nonneg (a + 4) d]

/-- Joint strong induction for the two monotonicity directions of the
dynamic program: more attackers strictly help, more defenders strictly
hurt. -/
theorem cp_mono : ∀ n A D : Nat, A + D ≤ n →
    (2 ≤ A → 1 ≤ D → conquest_prob (A - 1) D < conquest_prob A D) ∧
    (2 ≤ A → 1 ≤ D → conquest_prob A D < conquest_prob A (D - 1)) := by
  intro n
  induction n using Nat.strong_induction_on with
  | _ n IH =>
    intro A D hn
    constructor
    · intro hA hD
      match A, D, hA, hD, hn with
      | 2, D, _, hD, _ =>
        show conquest_prob 1 D < conquest_prob 2 D
        rw [conquest_prob_attacker_le_one 1 D (by omega) (by omega)]
        exact cp_pos 2 (by omega) D
      | 3, 1, _, _, _ =>
        show conquest_prob 2 1 < conquest_prob 3 1
        rw [cp_2_1, cp_3_1]; norm_num
      | 3, (d + 2), _, _, _ =>
        show conquest_prob 2 (d + 2) < conquest_prob 3 (d + 2)
        rw [cp_2_step, cp_3_step]
        nlinarith [cp_pos 2 (by omega) (d + 1), cp_nonneg 3 d]
      | (a + 4), 1, _, _, _ =>
        show conquest_prob (a + 3) 1 < conquest_prob (a + 4) 1
        rw [cp_4_1]
        nlinarith [cp_lt_one (a + 3) 1 (by omega)]
      | 4, (d + 2), _, _, hn =>
        show conquest_prob 3 (d + 2) < conquest_prob 4 (d + 2)
        rw [cp_3_step, show (4 : Nat) = 0 + 4 from rfl, cp_4_step, cp_2_step]
        have h1 : conquest_prob 2 (d + 1) < conquest_prob 3 (d + 1) := by
          have := (IH (3 + (d + 1)) (by omega) 3 (d + 1) le_rfl).1 (by omega) (by omega)
          simpa using this
        have h2 : conquest_prob 3 d ≤ conquest_prob 4 d := by
          match d with
          | 0 => rw [conquest_prob_defenders_zero, conquest_prob_defenders_zero]
          | (d' + 1) =>
            have := (IH (4 + (d' + 1)) (by omega) 4 (d' + 1) le_rfl).1
              (by omega) (by omega)
            exact le_of_lt (by simpa using this)
        have h3 : 0 < conquest_prob 2 (d + 1) := cp_pos 2 (by omega) (d + 1)
        have h4 : 0 ≤ conquest_prob 3 d := cp_nonneg 3 d
        linarith
      | (a + 5), (d + 2), _, _, hn =>
        show conquest_prob (a + 4) (d + 2) < conquest_prob (a + 5) (d + 2)
        rw [show a + 5 = (a + 1) + 4 from rfl, cp_4_step, cp_4_step]
        have h1 : conquest_prob (a + 2) (d + 2) < conquest_prob (a + 3) (d + 2) := by
          have := (IH (a + 3 + (d + 2)) (by omega) (a + 3) (d + 2) le_rfl).1
            (by omega) (by omega)
          simpa using this
        have h2 : conquest_prob (a + 3) (d + 1) < conquest_prob (a + 4) (d + 1) := by
          have := (IH (a + 4 + (d + 1)) (by omega) (a + 4) (d + 1) le_rfl).1
            (by omega) (by omega)
          simpa using this
        have h3 : conquest_prob (a + 4) d ≤ conquest_prob (a + 5) d := by
          match d with
          | 0 => rw [conquest_prob_defenders_zero, conquest_prob_defenders_zero]
          | (d' + 1) =>
            have := (IH (a + 5 + (d' + 1)) (by omega) (a + 5) (d' + 1) le_rfl).1
              (by omega) (by omega)
            exact le_of_lt (by simpa using this)
        linarith
    · intro hA hD
      match A, D, hA, hD, hn with
      | 2, 1, _, _, _ =>
        show conquest_prob 2 1 < conquest_prob 2 0
        rw [cp_2_1, conquest_prob_defenders_zero]; norm_num
      | 2, (d + 2), _, _, _ =>
        show conquest_prob 2 (d + 2) < conquest_prob 2 (d + 1)
        rw [cp_2_step]
        nlinarith [cp_pos 2 (by omega) (d + 1)]
      | 3, 1, _, _, _ =>
        show conquest_prob 3 1 < conquest_prob 3 0
        rw [cp_3_1, conquest_prob_defenders_zero]; norm_num
      | 3, 2, _, _, _ =>
        show conquest_prob 3 2 < conquest_prob 3 1
        rw [show (2 : Nat) = 0 + 2 from rfl, cp_3_step, cp_2_1, cp_3_1,
          conquest_prob_defenders_zero]
        norm_num
      | 3, (d + 3), _, _, hn =>
        show conquest_prob 3 (d + 3) < conquest_prob 3 (d + 2)
        rw [show d + 3 = (d + 1) + 2 from rfl, cp_3_step, cp_3_step]
        have h1 : conquest_prob 2 (d + 2) < conquest_prob 2 (d + 1) := by
          have := (IH (2 + (d + 2)) (by omega) 2 (d + 2) le_rfl).2 (by omega) (by omega)
          simpa using this
        have h2 : conquest_prob 3 (d + 1) < conquest_prob 3 d := by
          have := (IH (3 + (d + 1)) (by omega) 3 (d + 1) le_rfl).2 (by omega) (by omega)
          simpa using this
        linarith
      | (a + 4), 1, _, _, _ =>
        show conquest_prob (a + 4) 1 < conquest_prob (a + 4) 0
        rw [cp_4_1, conquest_prob_defenders_zero]
        nlinarith [cp_lt_one (a + 3) 1 (by omega)]
      | (a + 4), 2, _, _, hn =>
        show conquest_prob (a + 4) 2 < conquest_prob (a + 4) 1
        rw [show (2 : Nat) = 0 + 2 from rfl, cp_4_step, cp_4_1,
          conquest_prob_defenders_zero]
        have h1 : conquest_prob (a + 2) 2 < conquest_prob (a + 2) 1 := by
          have := (IH (a + 2 + 2) (by omega) (a + 2) 2 le_rfl).2 (by omega) (by omega)
          simpa using this
        have h2 : conquest_prob (a + 2) 1 < conquest_prob (a + 3) 1 := by
          have := (IH (a + 3 + 1) (by omega) (a + 3) 1 le_rfl).1 (by omega) (by omega)
          simpa using this
        have h3 : conquest_prob (a + 3) 1 ≤ 1 := cp_le_one (a + 3) 1
        linarith
      | (a + 4), (d + 3), _, _, hn =>
        show conquest_prob (a + 4) (d + 3) < conquest_prob (a + 4) (d + 2)
        rw [show d + 3 = (d + 1) + 2 from rfl, cp_4_step, cp_4_step]
        have h1 : conquest_prob (a + 2) (d + 3) < conquest_prob (a + 2) (d + 2) := by
          have := (IH (a + 2 + (d + 3)) (by omega) (a + 2) (d + 3) le_rfl).2
            (by omega) (by omega)
          simpa using this
        have h2 : conquest_prob (a + 3) (d + 2) < conquest_prob (a + 3) (d + 1) := by
          have := (IH (a + 3 + (d + 2)) (by omega) (a + 3) (d + 2) le_rfl).2
            (by omega) (by omega)
          simpa using this
        have h3 : conquest_prob (a + 4) (d + 1) < conquest_prob (a + 4) d := by
          have := (IH (a + 4 + (d + 1)) (by omega) (a + 4) (d + 1) le_rfl).2
            (by omega) (by omega)
          simpa using this
        linarith

/-! ## Claim theorems -/

/-- C1: `conquest_prob a 0 = 1` for every `a ≥ 1`, `conquest_prob 1 d = 0`
for every `d ≥ 1`, and for `a ≥ 2`, `d ≥ 1` the value equals the sum, over
the single-round outcome table for `(min 3 (a-1), min 2 d)` dice, of each
outcome's probability times `conquest_prob (a - attacker_loss)
(d - defender_loss)`. -/
theorem claim_C1 :
    (∀ a : Nat, 1 ≤ a → conquest_prob a 0 = 1) ∧
    (∀ d : Nat, 1 ≤ d → conquest_prob 1 d = 0) ∧
    (∀ a d : Nat, 2 ≤ a → 1 ≤ d →
      conquest_prob a d =
        ((prob_table (min 3 (a - 1)) (min 2 d)).map
          (fun x => x.2 * conquest_prob (a - x.1.1) (d - x.1.2))).sum) :=
  ⟨fun a _ => conquest_prob_defenders_zero a,
   fun d hd => conquest_prob_attacker_le_one 1 d le_rfl (by omega),
   fun a d ha hd => conquest_prob_rec a d ha hd⟩

/-- Witness for C1 at `a = 3`, `d = 2`. -/
theorem claim_C1_witness :
    conquest_prob 3 0 = 1 ∧ conquest_prob 1 2 = 0 ∧
    conquest_prob 3 2 =
      ((prob_table (min 3 (3 - 1)) (min 2 2)).map
        (fun x => x.2 * conquest_prob (3 - x.1.1) (2 - x.1.2))).sum :=
  ⟨claim_C1.1 3 (by norm_num), claim_C1.2.1 2 (by norm_num),
   claim_C1.2.2 3 2 (by norm_num) (by norm_num)⟩

/-- C8 amended: in exact rational arithmetic over the table's values (the
idealization of the float dynamic program), `conquest_prob` is strictly
increasing in the attacker count for `a ≥ 1`, `d ≥ 1`, and strictly
decreasing in the defender count for `a ≥ 2`.  In the program's own
binary64 arithmetic this strictness holds only below saturation (see
`claim_C8_counterexample`). -/
theorem claim_C8 : ∀ a d : Nat, 1 ≤ a → 1 ≤ d →
    conquest_prob a d < conquest_prob (a + 1) d ∧
    (2 ≤ a → conquest_prob a (d + 1) < conquest_prob a d) := by
  intro a d ha hd
  constructor
  · have h := (cp_mono (a + 1 + d) (a + 1) d le_rfl).1 (by omega) hd
    simpa using h
  · intro ha2
    have h := (cp_mono (a + (d + 1)) a (d + 1) le_rfl).2 ha2 (by omega)
    simpa using h

set_option maxRecDepth 10000 in
/-- C8 counterexample: under the program's IEEE-754 double arithmetic the
dynamic program saturates: `conquest_prob(37, 1)` and `conquest_prob(36, 1)`
evaluate to the same double — exactly `1.0 = 2 ^ 52 * 2 ^ (-52)` — so
`conquest_prob(a + 1, d) > conquest_prob(a, d)` fails in the program at
`a = 36`, `d = 1`. -/
theorem claim_C8_counterexample :
    conquest_prob_float1 37 = conquest_prob_float1 36 ∧
    conquest_prob_float1 36 = (2 ^ 52, -52) := by decide

/-- Witness for C8 at `a = 2`, `d = 1`. -/
theorem claim_C8_witness :
    conquest_prob 2 1 < conquest_prob 3 1 ∧
    conquest_prob 2 2 < conquest_prob 2 1 :=
  ⟨(claim_C8 2 1 (by norm_num) (by norm_num)).1,
   (claim_C8 2 1 (by norm_num) (by norm_num)).2 (by norm_num)⟩

/-- C10: `territory_fronts` filters adjacent pairs on
`territory_occupant s t1 ≠ territory_occupant s t1`, which never holds, so
it returns the empty set for every state: no front is ever reported. -/
theorem claim_C10 (s : State) : territory_fronts s = ∅ := by
  unfold territory_fronts
  simp

/-- C3 (code bug): in a state where red occupies every territory of the
region, `region_occupant` still answers `none` and `is_occupied_region`
answers `false` — the guard `len(A) > 0` in the source is satisfied by any
occupied region — while `regions_occupied_by_army` correctly reports the
region as owned by red. -/
theorem claim_C3_divergence :
    (∀ t ∈ exWorld.territories, territory_occupant exStateRed t = exRed) ∧
    region_occupant exStateRed exRegion = none ∧
    is_occupied_region exStateRed exRegion = false ∧
    regions_occupied_by_army exStateRed exRed = {exRegion} := by decide

set_option maxRecDepth 10000 in
/-- C7 counterexample: enumerating all ordered 3-vs-2 dice rolls, the
attacker loses two units in 2275 of the 7776 cases — not 2890 as the claim
states (2890/7776 is the probability that the *defender* loses two). -/
theorem claim_C7_counterexample :
    all_battles_32.count (2, 0) = 2275 ∧ ((2275 : ℚ) / 7776 ≠ 2890 / 7776) := by
  constructor
  · rw [all_battles_32, List.count_flatMap]; decide
  · norm_num

set_option maxRecDepth 10000 in
/-- C7 amended: the exact first-principles enumeration (ordered rolls,
sorted descending, pairwise comparison, ties to the defender) gives, for
each dice pairing, outcome frequencies within 0.001 of the decimal values
used by `_prob_table`; for 3 attacker dice vs 2 defender dice the attacker
loses 2 in 2275/7776 of the rolls, each side loses 1 in 2611/7776, and the
defender loses 2 in 2890/7776. -/
theorem claim_C7_amended :
    all_battles_11.length = 36 ∧
    all_battles_11.count (1, 0) = 21 ∧ all_battles_11.count (0, 1) = 15 ∧
    |(21 : ℚ)/36 - 583/1000| < 1/1000 ∧ |(15 : ℚ)/36 - 417/1000| < 1/1000 ∧
    all_battles_21.length = 216 ∧
    all_battles_21.count (1, 0) = 91 ∧ all_battles_21.count (0, 1) = 125 ∧
    |(91 : ℚ)/216 - 421/1000| < 1/1000 ∧ |(125 : ℚ)/216 - 579/1000| < 1/1000 ∧
    all_battles_31.length = 1296 ∧
    all_battles_31.count (1, 0) = 441 ∧ all_battles_31.count (0, 1) = 855 ∧
    |(441 : ℚ)/1296 - 340/1000| < 1/1000 ∧ |(855 : ℚ)/1296 - 660/1000| < 1/1000 ∧
    all_battles_12.length = 216 ∧
    all_battles_12.count (1, 0) = 161 ∧ all_battles_12.count (0, 1) = 55 ∧
    |(161 : ℚ)/216 - 745/1000| < 1/1000 ∧ |(55 : ℚ)/216 - 255/1000| < 1/1000 ∧
    all_battles_22.length = 1296 ∧
    all_battles_22.count (2, 0) = 581 ∧ all_battles_22.count (1, 1) = 420 ∧
    all_battles_22.count (0, 2) = 295 ∧
    |(581 : ℚ)/1296 - 448/1000| < 1/1000 ∧ |(420 : ℚ)/1296 - 324/1000| < 1/1000 ∧
    |(295 : ℚ)/1296 - 228/1000| < 1/1000 ∧
    all_battles_32.length = 7776 ∧
    all_battles_32.count (2, 0) = 2275 ∧ all_battles_32.count (1, 1) = 2611 ∧
    all_battles_32.count (0, 2) = 2890 ∧
    |(2275 : ℚ)/7776 - 292/1000| < 1/1000 ∧ |(2611 : ℚ)/7776 - 336/1000| < 1/1000 ∧
    |(2890 : ℚ)/7776 - 372/1000| < 1/1000 ∧
    prob_table 1 1 = [((1,0), 583/1000), ((0,1), 417/1000)] ∧
    prob_table 2 1 = [((1,0), 421/1000), ((0,1), 579/1000)] ∧
    prob_table 3 1 = [((1,0), 340/1000), ((0,1), 660/1000)] ∧
    prob_table 1 2 = [((1,0), 745/1000), ((0,1), 255/1000)] ∧
    prob_table 2 2 = [((2,0), 448/1000), ((1,1), 324/1000), ((0,2), 228/1000)] ∧
    prob_table 3 2 = [((2,0), 292/1000), ((1,1), 336/1000), ((0,2), 372/1000)] :=
  ⟨by rw [all_battles_11, List.length_flatMap]; decide,
   by rw [all_battles_11, List.count_flatMap]; decide,
   by rw [all_battles_11, List.count_flatMap]; decide,
   by rw [abs_lt]; norm_num, by rw [abs_lt]; norm_num,
   by rw [all_battles_21, List.length_flatMap]; decide,
   by rw [all_battles_21, List.count_flatMap]; decide,
   by rw [all_battles_21, List.count_flatMap]; decide,
   by rw [abs_lt]; norm_num, by rw [abs_lt]; norm_num,
   by rw [all_battles_31, List.length_flatMap]; decide,
   by rw [all_battles_31, List.count_flatMap]; decide,
   by rw [all_battles_31, List.count_flatMap]; decide,
   by rw [abs_lt]; norm_num, by rw [abs_lt]; norm_num,
   by rw [all_battles_12, List.length_flatMap]; decide,
   by rw [all_battles_12, List.count_flatMap]; decide,
   by rw [all_battles_12, List.count_flatMap]; decide,
   by rw [abs_lt]; norm_num, by rw [abs_lt]; norm_num,
   by rw [all_battles_22, List.length_flatMap]; decide,
   by rw [all_battles_22, List.count_flatMap]; decide,
   by rw [all_battles_22, List.count_flatMap]; decide,
   by rw [all_battles_22, List.count_flatMap]; decide,
   by rw [abs_lt]; norm_num, by rw [abs_lt]; norm_num, by rw [abs_lt]; norm_num,
   by rw [all_battles_32, List.length_flatMap]; decide,
   by rw [all_battles_32, List.count_flatMap]; decide,
   by rw [all_battles_32, List.count_flatMap]; decide,
   by rw [all_battles_32, List.count_flatMap]; decide,
   by rw [abs_lt]; norm_num, by rw [abs_lt]; norm_num, by rw [abs_lt]; norm_num,
   by norm_num [prob_table], by norm_num [prob_table], by norm_num [prob_table], by norm_num [prob_table], by norm_num [prob_table], by norm_num [prob_table]⟩

/-- C5: `game_over` holds iff exactly one distinct occupant appears across
the territories; `winning_army` returns that sole army and `none` when more
than one occupant remains; and `game` started from a game-over state
returns the empty history. -/
theorem claim_C5 :
    (∀ s : State, game_over s = true ↔ (undefeated_armies s).card = 1) ∧
    (∀ (s : State) (a : Army), undefeated_armies s = {a} →
      winning_army s = some a) ∧
    (∀ s : State, 1 < (undefeated_armies s).card → winning_army s = none) ∧
    (∀ (P : Type) (turnFn : State → Army → P × State) (A : List Army)
      (s : State) (r_max : Nat), game_over s = true →
      game turnFn A s r_max = []) := by
  refine ⟨?_, ?_, ?_, ?_⟩
  · intro s
    unfold game_over winning_army next_iter
    by_cases h : 1 < (undefeated_armies s).card
    · simp only [h, if_true, Option.isSome_none]
      constructor
      · intro hc; exact absurd hc (by simp)
      · intro hc; omega
    · simp only [h, if_false]
      by_cases hne : (undefeated_armies s).Nonempty
      · have hpos : 0 < (undefeated_armies s).card := Finset.card_pos.mpr hne
        simp only [hne, dif_pos, Option.isSome_some]
        constructor
        · intro _; omega
        · intro _; trivial
      · have hz : (undefeated_armies s).card = 0 := by
          rw [Finset.card_eq_zero]
          exact Finset.not_nonempty_iff_eq_empty.mp hne
        simp only [hne, dif_neg, not_false_iff, Option.isSome_none]
        constructor
        · intro hc; exact absurd hc (by simp)
        · intro hc; omega
  · intro s a ha
    unfold winning_army next_iter
    rw [ha]
    simp
  · intro s h
    unfold winning_army
    simp [h]
  · intro P turnFn A s r_max h
    unfold game game_iter
    simp [h]

/-- Witness for C5: in `exStateRed` a single army (red) holds every
territory, the game is over with red the winner, and the driver produces no
history; in the mixed `exState` two occupants remain and there is no
winner. -/
theorem claim_C5_witness :
    (game_over exStateRed = true ↔ (undefeated_armies exStateRed).card = 1) ∧
    winning_army exStateRed = some exRed ∧
    winning_army exState = none ∧
    game (fun s _ => ((), s)) [exRed, exBlue] exStateRed 5 = [] :=
  ⟨claim_C5.1 exStateRed,
   claim_C5.2.1 exStateRed exRed (by decide),
   claim_C5.2.2.1 exState (by decide),
   claim_C5.2.2.2 Unit (fun s _ => ((), s)) [exRed, exBlue] exStateRed 5
     (by decide)⟩

/-- C4: under the battle context (valid territories, adjacency, distinct
occupants, battle won with `p_a < n_a`), the boundary checks on a
strategy's returned invading count — the `Strategy.invade` postconditions
plus `do_invade`'s preconditions — accept `n` exactly when
`n_a - p_a ≤ n` and `n ≤ units(t_a) - p_a - 1`; in particular for
`n_a = 3`, `p_a = 1` the count `1` is rejected. -/
theorem claim_C4 (s : State) (t_a t_d : Territory) (n_a p_a : Nat)
    (h1 : t_a ∈ s.world.territories) (h2 : t_d ∈ s.world.territories)
    (h3 : (t_a, t_d) ∈ s.world.adjacencies)
    (h4 : territory_occupant s t_a ∈ s.world.armies)
    (h5 : territory_occupant s t_d ∈ s.world.armies)
    (h6 : territory_occupant s t_a ≠ territory_occupant s t_d)
    (h7 : p_a < n_a) :
    (∀ n : Nat,
      (strategy_invade_post s t_a n_a p_a n ∧
        do_invade_pre s t_a t_d n_a p_a n) ↔
      (n_a - p_a ≤ n ∧ n ≤ territory_units s t_a - p_a - 1)) ∧
    (n_a = 3 → p_a = 1 →
      ¬ (strategy_invade_post s t_a n_a p_a 1 ∧
          do_invade_pre s t_a t_d n_a p_a 1)) := by
  have main : ∀ n : Nat,
      (strategy_invade_post s t_a n_a p_a n ∧
        do_invade_pre s t_a t_d n_a p_a n) ↔
      (n_a - p_a ≤ n ∧ n ≤ territory_units s t_a - p_a - 1) := by
    intro n
    unfold strategy_invade_post do_invade_pre
    constructor
    · rintro ⟨⟨hp1, _⟩, _, _, _, _, _, _, _, _, _, h10⟩
      exact ⟨hp1, h10⟩
    · rintro ⟨hge, hle⟩
      exact ⟨⟨hge, by omega⟩, h1, h2, h3, h4, h5, h6, h7, hge, by omega, hle⟩
  refine ⟨main, ?_⟩
  intro e1 e2 hcontra
  have := (main 1).mp hcontra
  omega

/-- Witness for C4 at `exState` (red holds `t0` with 3 units, blue holds
the adjacent `t1`), with `n_a = 3`, `p_a = 1`. -/
theorem claim_C4_witness :
    ((∀ n : Nat,
      (strategy_invade_post exState exT0 3 1 n ∧
        do_invade_pre exState exT0 exT1 3 1 n) ↔
      (3 - 1 ≤ n ∧ n ≤ territory_units exState exT0 - 1 - 1)) ∧
    (3 = 3 → 1 = 1 →
      ¬ (strategy_invade_post exState exT0 3 1 1 ∧
          do_invade_pre exState exT0 exT1 3 1 1))) :=
  claim_C4 exState exT0 exT1 3 1 (by decide) (by decide) (by decide)
    (by decide) (by decide) (by decide) (by decide)

/-- C2: each transition operation, applied under its preconditions to a
valid state, yields a valid state over the same world.  (That the input
state is left untouched is inherent to the embedding: every `do_*` builds a
new `State` value from pure functions of the old one, mirroring the
source's `_replace` / dict-merge which never mutates in place.) -/
theorem claim_C2 :
    (∀ (s : State) (R : Finset Territory) (alloc : Territory → Nat),
      valid_state s → do_reinforce_pre s R alloc →
      valid_state (do_reinforce s R alloc) ∧
        (do_reinforce s R alloc).world = s.world) ∧
    (∀ (s : State) (t_a t_d : Territory) (p_a p_d : Nat),
      valid_state s → do_bury_pre s t_a t_d p_a p_d →
      valid_state (do_bury s t_a t_d p_a p_d) ∧
        (do_bury s t_a t_d p_a p_d).world = s.world) ∧
    (∀ (s : State) (t_a t_d : Territory) (n_a p_a n : Nat),
      valid_state s → do_invade_pre s t_a t_d n_a p_a n →
      valid_state (do_invade s t_a t_d n_a p_a n) ∧
        (do_invade s t_a t_d n_a p_a n).world = s.world) ∧
    (∀ (s : State) (t_0 t_1 : Territory) (n : Nat),
      valid_state s → do_maneuver_pre s t_0 t_1 n →
      valid_state (do_maneuver s t_0 t_1 n) ∧
        (do_maneuver s t_0 t_1 n).world = s.world) := by
  refine ⟨?_, ?_, ?_, ?_⟩
  · intro s R alloc hv _hpre
    refine ⟨?_, rfl⟩
    intro t ht
    unfold do_reinforce
    simp only
    by_cases hR : t ∈ R
    · simp only [hR, if_true]
      obtain ⟨hmem, hpos⟩ := hv t ht
      exact ⟨hmem, by unfold territory_units; omega⟩
    · simp only [hR, if_false]
      exact hv t ht
  · intro s t_a t_d p_a p_d hv hpre
    obtain ⟨ha, hd, _, hocca, hoccd, hne, _, hpa, hpd⟩ := hpre
    refine ⟨?_, rfl⟩
    intro t ht
    unfold do_bury
    simp only
    by_cases e1 : t = t_d
    · simp only [e1, if_true]
      exact ⟨hoccd, by unfold territory_units at hpd ⊢; omega⟩
    · simp only [e1, if_false]
      by_cases e0 : t = t_a
      · simp only [e0, if_true]
        exact ⟨hocca, by unfold territory_units at hpa ⊢; omega⟩
      · simp only [e0, if_false]
        exact hv t ht
  · intro s t_a t_d n_a p_a n hv hpre
    obtain ⟨ha, hd, _, hocca, hoccd, hne, hwon, hmin, hposmin, hmax⟩ := hpre
    refine ⟨?_, rfl⟩
    intro t ht
    unfold do_invade
    simp only
    by_cases e1 : t = t_d
    · simp only [e1, if_true]
      exact ⟨hocca, by omega⟩
    · simp only [e1, if_false]
      by_cases e0 : t = t_a
      · simp only [e0, if_true]
        refine ⟨hocca, ?_⟩
        unfold territory_units at hmax ⊢
        omega
      · simp only [e0, if_false]
        exact hv t ht
  · intro s t_0 t_1 n hv hpre
    obtain ⟨h0, h1, hu0, hu1, _, hocc, hn, hlt⟩ := hpre
    refine ⟨?_, rfl⟩
    intro t ht
    unfold do_maneuver
    simp only
    by_cases e1 : t = t_1
    · simp only [e1, if_true]
      obtain ⟨hmem, _⟩ := hv t_1 h1
      exact ⟨hmem, by unfold territory_units at hu1 ⊢; omega⟩
    · simp only [e1, if_false]
      by_cases e0 : t = t_0
      · simp only [e0, if_true]
        obtain ⟨hmem, _⟩ := hv t_0 h0
        exact ⟨hmem, by unfold territory_units at hlt ⊢; omega⟩
      · simp only [e0, if_false]
        exact hv t ht

/-- Witness for C2: the four transitions applied at concrete states of the
two-territory example world. -/
theorem claim_C2_witness :
    (valid_state (do_reinforce exState {exT0} (fun _ => 3)) ∧
      (do_reinforce exState {exT0} (fun _ => 3)).world = exState.world) ∧
    (valid_state (do_bury exState exT0 exT1 1 0) ∧
      (do_bury exState exT0 exT1 1 0).world = exState.world) ∧
    (valid_state (do_invade exState exT0 exT1 2 0 2) ∧
      (do_invade exState exT0 exT1 2 0 2).world = exState.world) ∧
    (valid_state (do_maneuver exStateRed exT0 exT1 1) ∧
      (do_maneuver exStateRed exT0 exT1 1).world = exStateRed.world) :=
  ⟨claim_C2.1 exState {exT0} (fun _ => 3) (by unfold valid_state; decide)
     (by unfold do_reinforce_pre armies_in_territories reinforcement_units; decide),
   claim_C2.2.1 exState exT0 exT1 1 0 (by unfold valid_state; decide)
     (by unfold do_bury_pre; decide),
   claim_C2.2.2.1 exState exT0 exT1 2 0 2 (by unfold valid_state; decide)
     (by unfold do_invade_pre; decide),
   claim_C2.2.2.2 exStateRed exT0 exT1 1 (by unfold valid_state; decide)
     (by unfold do_maneuver_pre; decide)⟩

/-- Summing a function that has been overridden at two distinct points of
the index set splits into the two new values plus the untouched rest. -/
theorem sum_two_point (T : Finset Territory) (f : Territory → Nat)
    (t0 t1 : Territory) (v0 v1 : Nat) (h0 : t0 ∈ T) (h1 : t1 ∈ T)
    (hne : t0 ≠ t1) :
    ∑ t ∈ T, (if t = t1 then v1 else if t = t0 then v0 else f t) =
      v1 + (v0 + ∑ t ∈ (T.erase t1).erase t0, f t) := by
  rw [← Finset.add_sum_erase T _ h1]
  have h0' : t0 ∈ T.erase t1 := Finset.mem_erase.mpr ⟨hne, h0⟩
  rw [← Finset.add_sum_erase _ _ h0']
  rw [if_pos rfl, if_neg hne, if_pos rfl]
  congr 2
  apply Finset.sum_congr rfl
  intro t ht
  obtain ⟨ht0, ht'⟩ := Finset.mem_erase.mp ht
  obtain ⟨ht1, _⟩ := Finset.mem_erase.mp ht'
  rw [if_neg ht1, if_neg ht0]

/-- C6: conservation laws of the transitions.  Reinforcement adds exactly
the reinforcing army's entitlement to the board total and changes no
occupant; a maneuver (between two adjacent territories of one army, hence
distinct by adjacency irreflexivity) preserves the total and every
occupant; an invasion leaves the attacking and conquered territories'
combined units equal to their pre-battle total minus the combined losses
(`p_a` plus the destroyed defender stack). -/
theorem claim_C6 :
    (∀ (s : State) (R : Finset Territory) (alloc : Territory → Nat),
      valid_state s → do_reinforce_pre s R alloc →
      (∃ a : Army, armies_in_territories s R = {a} ∧
        total_units (do_reinforce s R alloc) =
          total_units s + reinforcement_units s a) ∧
      (∀ t : Territory,
        territory_occupant (do_reinforce s R alloc) t =
          territory_occupant s t)) ∧
    (∀ (s : State) (t_0 t_1 : Territory) (n : Nat),
      adjacencies_irreflexive s.world →
      valid_state s → do_maneuver_pre s t_0 t_1 n →
      total_units (do_maneuver s t_0 t_1 n) = total_units s ∧
      (∀ t : Territory,
        territory_occupant (do_maneuver s t_0 t_1 n) t =
          territory_occupant s t)) ∧
    (∀ (s : State) (t_a t_d : Territory) (n_a p_a n : Nat),
      valid_state s → do_invade_pre s t_a t_d n_a p_a n →
      territory_units (do_invade s t_a t_d n_a p_a n) t_a +
        territory_units (do_invade s t_a t_d n_a p_a n) t_d =
      (territory_units s t_a + territory_units s t_d) -
        (p_a + territory_units s t_d)) := by
  refine ⟨?_, ?_, ?_⟩
  · intro s R alloc _hv hpre
    obtain ⟨_, hsub, hcard, _, _, _, hsum⟩ := hpre
    constructor
    · obtain ⟨a, ha⟩ := Finset.card_eq_one.mp hcard
      refine ⟨a, ha, ?_⟩
      have hfun : ∀ t : Territory,
          territory_units (do_reinforce s R alloc) t =
            territory_units s t + (if t ∈ R then alloc t else 0) := by
        intro t
        unfold do_reinforce territory_units
        by_cases h : t ∈ R <;> simp [h]
      have hw : (do_reinforce s R alloc).world = s.world := rfl
      unfold total_units
      rw [hw]
      rw [Finset.sum_congr rfl (fun t _ => hfun t), Finset.sum_add_distrib]
      congr 1
      rw [← Finset.sum_filter, Finset.filter_mem_eq_inter,
        Finset.inter_eq_right.mpr hsub]
      rw [hsum, ha, Finset.sum_singleton]
    · intro t
      unfold do_reinforce territory_occupant
      by_cases h : t ∈ R <;> simp [h, territory_occupant]
  · intro s t_0 t_1 n hirr _hv hpre
    obtain ⟨h0, h1, hu0, _, hadj, hocc, hn, hlt⟩ := hpre
    have hne : t_0 ≠ t_1 := hirr (t_0, t_1) hadj
    constructor
    · have hfun : ∀ t : Territory,
          territory_units (do_maneuver s t_0 t_1 n) t =
            if t = t_1 then territory_units s t_1 + n
            else if t = t_0 then territory_units s t_0 - n
            else territory_units s t := by
        intro t
        unfold do_maneuver territory_units
        dsimp only
        split_ifs <;> rfl
      have hid : ∀ t ∈ s.world.territories,
          territory_units s t =
            if t = t_1 then territory_units s t_1
            else if t = t_0 then territory_units s t_0
            else territory_units s t := by
        intro t _
        split_ifs with e1 e0
        · rw [e1]
        · rw [e0]
        · rfl
      have hw : (do_maneuver s t_0 t_1 n).world = s.world := rfl
      unfold total_units
      rw [hw]
      rw [Finset.sum_congr rfl (fun t _ => hfun t),
        sum_two_point _ _ t_0 t_1 _ _ h0 h1 hne]
      conv_rhs => rw [Finset.sum_congr rfl hid,
        sum_two_point _ _ t_0 t_1 _ _ h0 h1 hne]
      unfold territory_units at hlt ⊢
      omega
    · intro t
      unfold do_maneuver territory_occupant
      dsimp only
      split_ifs with e1 e0
      · rw [e1]
      · rw [e0]
      · rfl
  · intro s t_a t_d n_a p_a n _hv hpre
    obtain ⟨_, _, _, _, _, h6, h7, hmin, hpos, hmax⟩ := hpre
    have hne : t_a ≠ t_d := fun h => h6 (by rw [h])
    have hda : territory_units (do_invade s t_a t_d n_a p_a n) t_a =
        territory_units s t_a - p_a - n := by
      unfold do_invade territory_units
      dsimp only
      rw [if_neg hne, if_pos rfl]
    have hdd : territory_units (do_invade s t_a t_d n_a p_a n) t_d = n := by
      unfold do_invade territory_units
      dsimp only
      rw [if_pos rfl]
    rw [hda, hdd]
    unfold territory_units at hmax ⊢
    omega

/-- Witness for C6 at the example world: reinforcing red's territory by its
entitlement of 3, maneuvering one unit between red's two territories, and
an invasion with `n_a = 2`, `p_a = 0`, `n = 2`. -/
theorem claim_C6_witness :
    ((∃ a : Army, armies_in_territories exState {exT0} = {a} ∧
        total_units (do_reinforce exState {exT0} (fun _ => 3)) =
          total_units exState + reinforcement_units exState a) ∧
      (∀ t : Territory,
        territory_occupant (do_reinforce exState {exT0} (fun _ => 3)) t =
          territory_occupant exState t)) ∧
    (total_units (do_maneuver exStateRed exT0 exT1 1) = total_units exStateRed ∧
      (∀ t : Territory,
        territory_occupant (do_maneuver exStateRed exT0 exT1 1) t =
          territory_occupant exStateRed t)) ∧
    (territory_units (do_invade exState exT0 exT1 2 0 2) exT0 +
        territory_units (do_invade exState exT0 exT1 2 0 2) exT1 =
      (territory_units exState exT0 + territory_units exState exT1) -
        (0 + territory_units exState exT1)) :=
  ⟨claim_C6.1 exState {exT0} (fun _ => 3) (by unfold valid_state; decide)
     (by unfold do_reinforce_pre armies_in_territories reinforcement_units; decide),
   claim_C6.2.1 exStateRed exT0 exT1 1
     (by unfold adjacencies_irreflexive; decide)
     (by unfold valid_state; decide) (by unfold do_maneuver_pre; decide),
   claim_C6.2.2 exState exT0 exT1 2 0 2 (by unfold valid_state; decide)
     (by unfold do_invade_pre; decide)⟩

/-- Every value produced by looking a key up in a zip (with enough values)
is one of the zipped values. -/
theorem zip_lookup_mem {α β : Type} [DecidableEq α] :
    ∀ (Ts : List α) (L : List β) (t : α), t ∈ Ts → Ts.length ≤ L.length →
      ∃ b ∈ L, (Ts.zip L).lookup t = some b := by
  intro Ts
  induction Ts with
  | nil => intro L t ht _; exact absurd ht (List.not_mem_nil t)
  | cons t0 Ts ih =>
    intro L t ht hlen
    cases L with
    | nil => simp at hlen
    | cons b0 L' =>
      by_cases he : t = t0
      · subst he
        exact ⟨b0, List.mem_cons_self _ _, by simp [List.lookup]⟩
      · have ht' : t ∈ Ts := by
          rcases List.mem_cons.mp ht with h | h
          · exact absurd h he
          · exact h
        obtain ⟨b, hb, hlook⟩ := ih L' t ht' (by simpa using hlen)
        refine ⟨b, List.mem_cons_of_mem _ hb, ?_⟩
        have hbe : (t == t0) = false := beq_eq_false_iff_ne.mpr he
        simpa [List.lookup, hbe] using hlook

/-- Filtering a duplicate-free key list by a predicate on the value its
zip-lookup yields counts exactly the matching values among the first
`Ts.length` entries of the value list. -/
theorem zip_lookup_filter_count {α β : Type} [DecidableEq α] (p : β → Bool)
    (dflt : β) :
    ∀ (Ts : List α) (L : List β), Ts.Nodup → Ts.length ≤ L.length →
      (Ts.filter (fun t => p (((Ts.zip L).lookup t).getD dflt))).length =
        (L.take Ts.length).countP p := by
  intro Ts
  induction Ts with
  | nil => intro L _ _; simp
  | cons t0 Ts ih =>
    intro L hnd hlen
    cases L with
    | nil => simp at hlen
    | cons b0 L' =>
      obtain ⟨hnotmem, hnd'⟩ := List.nodup_cons.mp hnd
      have hlen' : Ts.length ≤ L'.length := by simpa using hlen
      have hhead : ((((t0 :: Ts).zip (b0 :: L')).lookup t0).getD dflt) = b0 := by
        simp [List.lookup]
      have htail : ∀ t ∈ Ts,
          (p ((((t0 :: Ts).zip (b0 :: L')).lookup t).getD dflt)) =
          (p (((Ts.zip L').lookup t).getD dflt)) := by
        intro t ht
        have hne : (t == t0) = false :=
          beq_eq_false_iff_ne.mpr (fun h => hnotmem (h ▸ ht))
        simp only [List.zip_cons_cons, List.lookup, hne]
        rfl
      rw [List.filter_cons]
      simp only [hhead]
      rw [List.filter_congr htail]
      simp only [List.length_cons]
      rw [List.take_succ_cons, List.countP_cons]
      by_cases hp : p b0
      · simp [hp, ih L' hnd' hlen']
      · simp [hp, ih L' hnd' hlen']

/-- Every army present in the shuffled army list receives either
`⌊territories/armies⌋` or one more territory from the deal of
`random_initial_state`. -/
theorem deal_card_bounds (w : World) (T : List Territory) (A : List Army)
    (Q : List (Army × Nat)) (a : Army)
    (hTnd : T.Nodup) (hTw : T.toFinset = w.territories)
    (hAnd : A.Nodup) (hAw : A.toFinset = w.armies) (hAne : A ≠ [])
    (hQ : Q.Perm (initial_pairs A)) (ha : a ∈ A) :
    w.territories.card / w.armies.card ≤
      (territories_occupied_by_army (random_initial_state w T A Q) a).card ∧
    (territories_occupied_by_army (random_initial_state w T A Q) a).card ≤
      w.territories.card / w.armies.card + 1 := by
  have hTlen : T.length = w.territories.card := by
    rw [← hTw, List.toFinset_card_of_nodup hTnd]
  have hAlen : A.length = w.armies.card := by
    rw [← hAw, List.toFinset_card_of_nodup hAnd]
  have hA0 : 0 < A.length := List.length_pos.mpr hAne
  have hPlen :
      ((List.replicate (w.territories.card / w.armies.card)
        (initial_pairs A)).flatten).length =
      w.territories.card / w.armies.card * A.length := by
    rw [List.length_flatten, List.map_replicate]
    simp [initial_pairs, List.sum_const_nat]
  have hQlen : Q.length = A.length := by
    rw [hQ.length_eq]; simp [initial_pairs]
  have hdm : w.territories.card / w.armies.card * w.armies.card +
      w.territories.card % w.armies.card = w.territories.card :=
    Nat.div_add_mod' _ _
  have hmod : w.territories.card % w.armies.card < w.armies.card :=
    Nat.mod_lt _ (hAlen ▸ hA0)
  have hTL : T.length ≤
      (((List.replicate (w.territories.card / w.armies.card)
        (initial_pairs A)).flatten) ++ Q).length := by
    rw [List.length_append, hPlen, hQlen, hTlen, hAlen]
    omega
  have hPle : ((List.replicate (w.territories.card / w.armies.card)
      (initial_pairs A)).flatten).length ≤ T.length := by
    rw [hPlen, hTlen, hAlen]
    exact Nat.div_mul_le_self _ _
  -- the occupied-territory set, as a list filter over T
  have hset : (territories_occupied_by_army (random_initial_state w T A Q) a) =
      (T.filter (fun t =>
        (((T.zip (((List.replicate (w.territories.card / w.armies.card)
          (initial_pairs A)).flatten) ++ Q)).lookup t).getD
            (⟨"keyerror"⟩, 0)).1 == a)).toFinset := by
    unfold territories_occupied_by_army
    rw [List.toFinset_filter]
    have : (random_initial_state w T A Q).world.territories = T.toFinset := by
      rw [hTw]; rfl
    rw [this]
    apply Finset.filter_congr
    intro t _
    simp only [territory_occupant, random_initial_state, beq_iff_eq]
  rw [hset, List.toFinset_card_of_nodup (hTnd.filter _)]
  rw [zip_lookup_filter_count (fun b => b.1 == a) (⟨"keyerror"⟩, 0) T _ hTnd hTL]
  -- split the take over the fair part and the extra round
  have hsplit : T.length =
      ((List.replicate (w.territories.card / w.armies.card)
        (initial_pairs A)).flatten).length +
      (T.length - ((List.replicate (w.territories.card / w.armies.card)
        (initial_pairs A)).flatten).length) := by omega
  rw [hsplit, List.take_append, List.countP_append]
  have hpairs : (initial_pairs A).countP (fun b => b.1 == a) = 1 := by
    unfold initial_pairs
    rw [List.countP_map]
    have : ((fun (b : Army × Nat) => b.1 == a) ∘ (fun a' => (a', 2))) =
        (fun x => x == a) := rfl
    rw [this]
    rw [← List.count]
    exact List.count_eq_one_of_mem hAnd ha
  have hP : ((List.replicate (w.territories.card / w.armies.card)
      (initial_pairs A)).flatten).countP (fun b => b.1 == a) =
      w.territories.card / w.armies.card := by
    rw [List.countP_flatten, List.map_replicate, hpairs, List.sum_const_nat]
    omega
  have hQbound : (Q.take (T.length -
      ((List.replicate (w.territories.card / w.armies.card)
        (initial_pairs A)).flatten).length)).countP (fun b => b.1 == a) ≤ 1 := by
    calc (Q.take _).countP (fun b => b.1 == a)
        ≤ Q.countP (fun b => b.1 == a) :=
          (List.take_sublist _ _).countP_le _
      _ = (initial_pairs A).countP (fun b => b.1 == a) := hQ.countP_eq _
      _ = 1 := hpairs
  rw [hP]
  omega

/-- C9: for every world and every outcome of the three shuffles (modelled
as: `T` a permutation of the territories, `A` a permutation of the armies,
`Q` a permutation of the extra round of pairs), `random_initial_state`
assigns every territory an occupant from `world.armies` with exactly 2
units, and any two armies' territory counts differ by at most 1. -/
theorem claim_C9 (w : World) (T : List Territory) (A : List Army)
    (Q : List (Army × Nat))
    (hTnd : T.Nodup) (hTw : T.toFinset = w.territories)
    (hAnd : A.Nodup) (hAw : A.toFinset = w.armies) (hAne : A ≠ [])
    (hQ : Q.Perm (initial_pairs A)) :
    (∀ t ∈ w.territories,
      territory_occupant (random_initial_state w T A Q) t ∈ w.armies ∧
      territory_units (random_initial_state w T A Q) t = 2) ∧
    (∀ a1 ∈ w.armies, ∀ a2 ∈ w.armies,
      |((territories_occupied_by_army (random_initial_state w T A Q) a1).card : ℤ) -
        ((territories_occupied_by_army (random_initial_state w T A Q) a2).card : ℤ)|
        ≤ 1) := by
  have hTlen : T.length = w.territories.card := by
    rw [← hTw, List.toFinset_card_of_nodup hTnd]
  have hAlen : A.length = w.armies.card := by
    rw [← hAw, List.toFinset_card_of_nodup hAnd]
  have hA0 : 0 < A.length := List.length_pos.mpr hAne
  have hPlen :
      ((List.replicate (w.territories.card / w.armies.card)
        (initial_pairs A)).flatten).length =
      w.territories.card / w.armies.card * A.length := by
    rw [List.length_flatten, List.map_replicate]
    simp [initial_pairs, List.sum_const_nat]
  have hQlen : Q.length = A.length := by
    rw [hQ.length_eq]; simp [initial_pairs]
  have hdm : w.territories.card / w.armies.card * w.armies.card +
      w.territories.card % w.armies.card = w.territories.card :=
    Nat.div_add_mod' _ _
  have hmod : w.territories.card % w.armies.card < w.armies.card :=
    Nat.mod_lt _ (hAlen ▸ hA0)
  have hTL : T.length ≤
      (((List.replicate (w.territories.card / w.armies.card)
        (initial_pairs A)).flatten) ++ Q).length := by
    rw [List.length_append, hPlen, hQlen, hTlen, hAlen]
    omega
  constructor
  · intro t ht
    have htT : t ∈ T := by
      rw [← hTw] at ht
      exact List.mem_toFinset.mp ht
    obtain ⟨b, hbL, hlook⟩ := zip_lookup_mem T _ t htT hTL
    have hb : b.1 ∈ A ∧ b.2 = 2 := by
      have hb' : b ∈ initial_pairs A := by
        rcases List.mem_append.mp hbL with h | h
        · obtain ⟨l, hl, hbl⟩ := List.mem_flatten.mp h
          rw [List.eq_of_mem_replicate hl] at hbl
          exact hbl
        · exact hQ.mem_iff.mp h
      obtain ⟨x, hx, hxe⟩ := List.mem_map.mp hb'
      cases hxe
      exact ⟨hx, rfl⟩
    have hocc : territory_occupant (random_initial_state w T A Q) t = b.1 := by
      unfold territory_occupant random_initial_state
      simp only
      rw [hlook]
      rfl
    have hun : territory_units (random_initial_state w T A Q) t = b.2 := by
      unfold territory_units random_initial_state
      simp only
      rw [hlook]
      rfl
    refine ⟨?_, ?_⟩
    · rw [hocc, ← hAw]
      exact List.mem_toFinset.mpr hb.1
    · rw [hun, hb.2]
  · intro a1 ha1 a2 ha2
    have ha1' : a1 ∈ A := by rw [← hAw] at ha1; exact List.mem_toFinset.mp ha1
    have ha2' : a2 ∈ A := by rw [← hAw] at ha2; exact List.mem_toFinset.mp ha2
    obtain ⟨hlo1, hhi1⟩ :=
      deal_card_bounds w T A Q a1 hTnd hTw hAnd hAw hAne hQ ha1'
    obtain ⟨hlo2, hhi2⟩ :=
      deal_card_bounds w T A Q a2 hTnd hTw hAnd hAw hAne hQ ha2'
    rw [abs_le]
    omega

/-- Witness for C9: the three-territory world dealt to `[red, blue]` with
the extra round shuffled to `[(blue, 2), (red, 2)]`. -/
theorem claim_C9_witness :
    (∀ t ∈ exWorld3.territories,
      territory_occupant (random_initial_state exWorld3 [exT0, exT1, exT2]
        [exRed, exBlue] [(exBlue, 2), (exRed, 2)]) t ∈ exWorld3.armies ∧
      territory_units (random_initial_state exWorld3 [exT0, exT1, exT2]
        [exRed, exBlue] [(exBlue, 2), (exRed, 2)]) t = 2) ∧
    (∀ a1 ∈ exWorld3.armies, ∀ a2 ∈ exWorld3.armies,
      |((territories_occupied_by_army (random_initial_state exWorld3
          [exT0, exT1, exT2] [exRed, exBlue] [(exBlue, 2), (exRed, 2)])
          a1).card : ℤ) -
        ((territories_occupied_by_army (random_initial_state exWorld3
          [exT0, exT1, exT2] [exRed, exBlue] [(exBlue, 2), (exRed, 2)])
          a2).card : ℤ)| ≤ 1) :=
  claim_C9 exWorld3 [exT0, exT1, exT2] [exRed, exBlue]
    [(exBlue, 2), (exRed, 2)]
    (by decide) (by decide) (by decide) (by decide) (by decide) (by decide)
